import Mathlib

/-!
Verification development for the upgrade flow of mycroft-skills-kit
(source files src/msk/actions/upgrade.py and src/msk/repo_action.py).

The flow is embedded shallowly.  The local git working copy of the
registry is a `GitState`: the tracked (name, path, url, sha) list that
`SkillRepo.get_skill_data` yields, the set of local branches, the
currently checked-out branch, and oracles giving the textual output of
`git diff <path>` and `git ls-files <path>` for the registry working
copy, plus the ref that `symbolic-ref refs/remotes/origin/HEAD`
resolves to inside the skill submodule.  The oracles are fixed for the
duration of one run, matching the source, which queries each of them
at most once per run.

Side effects are recorded as an `Effect` trace and each run ends in an
`Outcome`: the returned upgrade branch on success, or the exception
(`NotUploaded`, `AlreadyUpdated`, or a propagated git error) that
aborted the run.  The GitHub side (`create_or_edit_pr`) is embedded
over the list of pull requests returned for the matching base/head
pair; editing or creating is recorded as a `PrResult`.

Python string idioms that the source relies on are embedded exactly:
`str.split` on a newline always yields at least one element (splitting
the empty string yields a list holding one empty string), and the
operator testing substring membership is `strContains`.
-/

namespace Msk

/-- Generic test that the first list is a leading segment of the second. -/
def beginsWith {α : Type} [DecidableEq α] : List α → List α → Bool
  | [], _ => true
  | _ :: _, [] => false
  | c :: cs, d :: ds => if c = d then beginsWith cs ds else false

/-- Generic contiguous-sublist test; `hasSub needle hay` is true when
`needle` occurs contiguously inside `hay`. -/
def hasSub {α : Type} [DecidableEq α] : List α → List α → Bool
  | needle, [] => needle.isEmpty
  | needle, c :: rest => beginsWith needle (c :: rest) || hasSub needle rest

/-- The Python membership test of one string inside another,
as in the source line testing the provenance marker against a pull
request body. -/
def strContains (hay needle : String) : Bool :=
  hasSub needle.data hay.data

/-- Character-level embedding of the Python split of a string on a
single newline: every newline separates, empty pieces are kept, and the
empty input yields one empty piece. -/
def splitNlChars : List Char → List (List Char)
  | [] => [[]]
  | c :: rest =>
    if c = '\n' then [] :: splitNlChars rest
    else
      match splitNlChars rest with
      | [] => [[c]]
      | h :: t => (c :: h) :: t

/-- Python split of a string on a newline, as used on the rev-list
output in `create_pr_message`. -/
def pySplitNl (s : String) : List String :=
  (splitNlChars s.data).map (fun cs => String.mk cs)

/-- Python join of a list of strings with a newline separator. -/
def joinNl : List String → String
  | [] => ""
  | [x] => x
  | x :: y :: rest => x ++ "\n" ++ joinNl (y :: rest)

/-- One tracked entry of the registry: the (name, path, url, sha) tuple
yielded by `get_skill_data`. -/
structure RegEntry where
  name : String
  path : String
  url : String
  sha : String
  deriving DecidableEq

/-- State of the registry working copy at the start of a run. -/
structure GitState where
  registry : List RegEntry
  branches : List String
  currentBranch : String
  originHead : String
  diffOut : String → String
  lsFilesOut : String → String

/-- Recorded side effects of a run, in execution order. -/
inductive Effect where
  | reset
  | update
  | fetch
  | resetHard (ref : String)
  | submoduleInit (path : String)
  | branchDelete (branch : String)
  | checkoutNew (branch : String)
  | checkout (branch : String)
  | add (path : String)
  | commit (message : String)
  | setupFork
  | push (branch : String)
  | prReconcile
  deriving DecidableEq

/-- How a run ends: the returned upgrade branch, or the exception that
aborted it (a propagated `GitCommandError` is `gitError`). -/
inductive Outcome where
  | ok (branch : String)
  | alreadyUpdated
  | notUploaded
  | gitError
  deriving DecidableEq

/-- Semantics of `git branch -D b`: fails (raising `GitCommandError`)
when the branch does not exist or is the currently checked-out branch,
otherwise removes it. -/
def branchDeleteStep (s : GitState) (b : String) : Bool × GitState :=
  if b ∈ s.branches ∧ s.currentBranch ≠ b then
    (true, { s with branches := s.branches.erase b })
  else
    (false, s)

/-- Semantics of `git checkout -b b`: fails when the branch already
exists, otherwise creates it and checks it out. -/
def checkoutNewStep (s : GitState) (b : String) : Bool × GitState :=
  if b ∈ s.branches then
    (false, s)
  else
    (true, { s with branches := b :: s.branches, currentBranch := b })

/-- Semantics of plain `git checkout b`: fails when the branch does not
exist, otherwise switches to it. -/
def checkoutStep (s : GitState) (b : String) : Bool × GitState :=
  if b ∈ s.branches then
    (true, { s with currentBranch := b })
  else
    (false, s)

/-- The dict comprehension shared by `UpgradeAction.find_submodule_path`
and `SkillData.submodule_name`: a mapping built left to right from the
registry tuples, a later tuple with the same name overwriting an
earlier one. -/
def name_to_path (reg : List RegEntry) : String → Option String :=
  reg.foldl (fun acc e => fun k => if k = e.name then some e.path else acc k)
    (fun _ => none)

/-- Submodule-path resolution (`UpgradeAction.find_submodule_path`,
identically `SkillData.submodule_name`): `none` is the case in which
the source raises `NotUploaded`. -/
def find_submodule_path (reg : List RegEntry) (skillName : String) : Option String :=
  name_to_path reg skillName

/-- `UpgradeAction.perform_local_upgrade`: unstage, sync the submodule
to its upstream default branch, delete the upgrade branch suppressing
`GitCommandError`, check it out fresh, then either raise
`AlreadyUpdated` when the registry diff at the submodule path is empty
or stage and commit.  The path staged via the submodule working
directory is recorded relative to the registry root, the same location
the diff is taken at. -/
def perform_local_upgrade (s : GitState) (skillName submodulePath : String) :
    Outcome × List Effect :=
  let upgradeBranch := "upgrade/" ++ skillName
  let pre := [Effect.reset, Effect.fetch, Effect.resetHard s.originHead]
  let s1 := (branchDeleteStep s upgradeBranch).2
  let co := checkoutNewStep s1 upgradeBranch
  if co.1 then
    if s.diffOut submodulePath = "" then
      (Outcome.alreadyUpdated,
        pre ++ [Effect.branchDelete upgradeBranch, Effect.checkoutNew upgradeBranch])
    else
      (Outcome.ok upgradeBranch,
        pre ++ [Effect.branchDelete upgradeBranch, Effect.checkoutNew upgradeBranch,
          Effect.add submodulePath, Effect.commit ("Upgrade " ++ skillName)])
  else
    (Outcome.gitError, pre ++ [Effect.branchDelete upgradeBranch])

/-- The local part of `UpgradeAction.perform`: refresh the registry,
resolve the submodule path (raising `NotUploaded` when absent),
initialize the submodule, then `perform_local_upgrade`. -/
def upgradeActionFlow (s : GitState) (skillName : String) : Outcome × List Effect :=
  match find_submodule_path s.registry skillName with
  | none => (Outcome.notUploaded, [Effect.update])
  | some path =>
    let r := perform_local_upgrade s skillName path
    (r.1, Effect.update :: Effect.submoduleInit path :: r.2)

/-- The whole of `UpgradeAction.perform` at trace level: on local
success the run continues with fork setup, the force push of the
upgrade branch, and pull-request reconciliation; an exception raised
earlier propagates and nothing after it runs. -/
def performRun (s : GitState) (skillName : String) : Outcome × List Effect :=
  let r := upgradeActionFlow s skillName
  match r.1 with
  | Outcome.ok branch =>
    (r.1, r.2 ++ [Effect.setupFork, Effect.push branch, Effect.prReconcile])
  | _ => r

/-- `RepoData.checkout_branch`: delete the branch suppressing
`GitCommandError`, try `checkout -b`, and on failure fall back to a
plain checkout of the existing branch. -/
def checkout_branch (s : GitState) (branch : String) : Bool × GitState × List Effect :=
  let s1 := (branchDeleteStep s branch).2
  let co := checkoutNewStep s1 branch
  if co.1 then
    (true, co.2, [Effect.branchDelete branch, Effect.checkoutNew branch])
  else
    let co2 := checkoutStep s1 branch
    (co2.1, co2.2,
      [Effect.branchDelete branch, Effect.checkoutNew branch, Effect.checkout branch])

/-- `SkillData.upgrade`: resolve the submodule name (raising
`NotUploaded` when absent, before any side effect), refresh the
registry, sync the submodule to its upstream default branch, switch to
the upgrade branch via `checkout_branch`, then raise `AlreadyUpdated`
when the diff at the path is empty and the path is tracked (non-empty
ls-files output), otherwise stage and commit. -/
def skillData_upgrade (s : GitState) (skillName : String) : Outcome × List Effect :=
  match find_submodule_path s.registry skillName with
  | none => (Outcome.notUploaded, [])
  | some skillModule =>
    let pre := [Effect.update, Effect.fetch, Effect.resetHard s.originHead]
    let upgradeBranch := "upgrade/" ++ skillName
    let cb := checkout_branch s upgradeBranch
    if cb.1 then
      if s.diffOut skillModule = "" ∧ s.lsFilesOut skillModule ≠ "" then
        (Outcome.alreadyUpdated, pre ++ cb.2.2)
      else
        (Outcome.ok upgradeBranch,
          pre ++ cb.2.2 ++
            [Effect.add skillModule, Effect.commit ("Upgrade " ++ skillName)])
    else
      (Outcome.gitError, pre ++ cb.2.2)

/-- Selects the staging and committing effects of a trace. -/
def isChange : Effect → Bool
  | Effect.add _ => true
  | Effect.commit _ => true
  | _ => false

/-- The staged-and-committed changes of a run, in order. -/
def committedChanges (es : List Effect) : List Effect :=
  es.filter isChange

/-- Selects the pushing and pull-request effects of a trace. -/
def isPushOrPr : Effect → Bool
  | Effect.push _ => true
  | Effect.prReconcile => true
  | _ => false

/-- A pull request as seen through the hosting API: its title and body. -/
structure Pull where
  title : String
  body : String
  deriving DecidableEq

/-- The hosting-side action taken by `create_or_edit_pr`: edit of the
pull request at an index of the matching list, refusal (`PRModified`),
or creation of a new pull request. -/
inductive PrResult where
  | edited (index : Nat) (title : String) (body : String)
  | prModified
  | created (title : String) (body : String)
  deriving DecidableEq

/-- The provenance marker substring tested against an existing pull
request body. -/
def marker : String := "mycroft-skills-kit"

/-- `UpgradeAction.create_or_edit_pr` over the list of pull requests
returned for the matching base/head pair: with no match a new pull
request is created; otherwise the first match is edited when its body
still contains the provenance marker and `PRModified` is raised when it
does not. -/
def create_or_edit_pr (title body : String) (pulls : List Pull) : PrResult :=
  match pulls with
  | [] => PrResult.created title body
  | pull :: _ =>
    if strContains pull.body marker then PrResult.edited 0 title body
    else PrResult.prModified

/-- Effect of a `PrResult` on the hosting state: an edit replaces the
pull request at the index, a refusal changes nothing, a creation
appends. -/
def applyPr (r : PrResult) (pulls : List Pull) : List Pull :=
  match r with
  | PrResult.edited i t b => pulls.set i (Pull.mk t b)
  | PrResult.prModified => pulls
  | PrResult.created t b => pulls ++ [Pull.mk t b]

/-- One bullet of the pull-request body, rendered from a commit subject
line and the hosted view of the commit. -/
def mkBullet (subject htmlUrl : String) : String :=
  " - [" ++ subject ++ "](" ++ htmlUrl ++ ")"

/-- The fixed prose opening the generated pull-request body. -/
def prHeader (skillName : String) : String :=
  "This upgrades " ++ skillName ++ " to include the following new commits:\n\n"

/-- The fixed provenance footer closing the generated pull-request
body, naming the tool and its version. -/
def prFooter (version : String) : String :=
  "\n\n<sub>Created with [mycroft-skills-kit](https://github.com/mycroftai/mycroft-skills-kit) v"
    ++ version ++ "</sub>"

/-- `UpgradeAction.create_pr_message`: the title and the body built
from the rev-list output (the ancestry-path rev-list from the recorded
sha to HEAD), split on newlines, each piece rendered as a bullet via
the subject-line and hosted-view oracles. -/
def create_pr_message (skillName version revListOut : String)
    (subjectOf htmlUrlOf : String → String) : String × String :=
  ("Upgrade " ++ skillName,
    prHeader skillName
      ++ joinNl ((pySplitNl revListOut).map
            (fun sha => mkBullet (subjectOf sha) (htmlUrlOf sha)))
      ++ prFooter version)

/-- A registry holding one tracked skill, for concrete runs. -/
def sampleRegistry : List RegEntry :=
  [RegEntry.mk "skill-a" "skills/skill-a" "https://example.com/skill-a" "abc123"]

/-- A registry holding the weather skill of the specification scenario. -/
def weatherRegistry : List RegEntry :=
  [RegEntry.mk "skill-weather" "skills/skill-weather"
    "https://example.com/skill-weather" "abc123"]

/-- A one-branch working copy on master over a given registry, with
constant diff and ls-files outputs. -/
def mkState (reg : List RegEntry) (d ls : String) : GitState :=
  GitState.mk reg ["master"] "master" "refs/remotes/origin/master"
    (fun _ => d) (fun _ => ls)

theorem beginsWith_self_append {α : Type} [DecidableEq α] (m t : List α) :
    beginsWith m (m ++ t) = true := by
  induction m with
  | nil => rfl
  | cons c cs ih => simp [beginsWith, ih]

theorem hasSub_cons {α : Type} [DecidableEq α] (m : List α) (c : α) (rest : List α)
    (h : hasSub m rest = true) : hasSub m (c :: rest) = true := by
  simp [hasSub, h]

theorem hasSub_append_left {α : Type} [DecidableEq α] (a m rest : List α)
    (h : hasSub m rest = true) : hasSub m (a ++ rest) = true := by
  induction a with
  | nil => exact h
  | cons c cs ih => exact hasSub_cons m c (cs ++ rest) ih

theorem hasSub_self_append {α : Type} [DecidableEq α] (m t : List α) :
    hasSub m (m ++ t) = true := by
  cases m with
  | nil =>
    cases t with
    | nil => rfl
    | cons c rest => simp [hasSub, beginsWith]
  | cons c cs =>
    have h := beginsWith_self_append (c :: cs) t
    simp only [List.cons_append] at h
    simp [hasSub, h]

theorem hasSub_middle {α : Type} [DecidableEq α] (a m b : List α) :
    hasSub m (a ++ (m ++ b)) = true :=
  hasSub_append_left a m (m ++ b) (hasSub_self_append m b)

theorem splitNlChars_of_no_nl (l : List Char) (h : ('\n') ∉ l) :
    splitNlChars l = [l] := by
  induction l with
  | nil => rfl
  | cons c cs ih =>
    have hc : c ≠ '\n' := fun hc => h (hc ▸ List.mem_cons_self c cs)
    have hcs : ('\n') ∉ cs := fun hm => h (List.mem_cons_of_mem _ hm)
    simp [splitNlChars, hc, ih hcs]

theorem splitNlChars_append_nl (a rest : List Char) (h : ('\n') ∉ a) :
    splitNlChars (a ++ '\n' :: rest) = a :: splitNlChars rest := by
  induction a with
  | nil => simp [splitNlChars]
  | cons c cs ih =>
    have hc : c ≠ '\n' := fun hc => h (hc ▸ List.mem_cons_self c cs)
    have hcs : ('\n') ∉ cs := fun hm => h (List.mem_cons_of_mem _ hm)
    simp [splitNlChars, hc, ih hcs]

theorem nl_data : ("\n").data = ['\n'] := rfl

theorem pySplitNl_joinNl (shas : List String) (hne : shas ≠ [])
    (hnl : ∀ x ∈ shas, ('\n') ∉ x.data) :
    pySplitNl (joinNl shas) = shas := by
  induction shas with
  | nil => exact absurd rfl hne
  | cons x rest ih =>
    cases rest with
    | nil =>
      have hx : ('\n') ∉ x.data := hnl x (by simp)
      simp [joinNl, pySplitNl, splitNlChars_of_no_nl x.data hx]
    | cons y t =>
      have hx : ('\n') ∉ x.data := hnl x (by simp)
      have hrest : ∀ z ∈ y :: t, ('\n') ∉ z.data :=
        fun z hz => hnl z (List.mem_cons_of_mem _ hz)
      have hdata : (joinNl (x :: y :: t)).data
          = x.data ++ '\n' :: (joinNl (y :: t)).data := by
        simp [joinNl, nl_data]
      have ih2 := ih (by simp) hrest
      rw [pySplitNl] at ih2
      rw [pySplitNl, hdata, splitNlChars_append_nl _ _ hx]
      simp [ih2]

theorem name_to_path_append (reg : List RegEntry) (e : RegEntry) (k : String) :
    name_to_path (reg ++ [e]) k
      = if k = e.name then some e.path else name_to_path reg k := by
  simp [name_to_path, List.foldl_append]

theorem name_to_path_some (reg : List RegEntry) (k p : String)
    (h : name_to_path reg k = some p) :
    ∃ e ∈ reg, e.name = k ∧ e.path = p := by
  induction reg using List.reverseRecOn with
  | nil => exact absurd h (by simp [name_to_path])
  | append_singleton reg e ih =>
    rw [name_to_path_append] at h
    by_cases hk : k = e.name
    · rw [if_pos hk] at h
      exact ⟨e, by simp, hk.symm, Option.some.inj h⟩
    · rw [if_neg hk] at h
      obtain ⟨f, hf, hn, hp⟩ := ih h
      exact ⟨f, by simp [hf], hn, hp⟩

theorem name_to_path_eq_none (reg : List RegEntry) (k : String) :
    name_to_path reg k = none ↔ ∀ e ∈ reg, e.name ≠ k := by
  induction reg using List.reverseRecOn with
  | nil => simp [name_to_path]
  | append_singleton reg e ih =>
    rw [name_to_path_append]
    by_cases hk : k = e.name
    · rw [if_pos hk]
      constructor
      · intro h; cases h
      · intro h; exact absurd hk.symm (h e (by simp))
    · rw [if_neg hk, ih]
      constructor
      · intro h f hf
        rcases List.mem_append.1 hf with h1 | h1
        · exact h f h1
        · have : f = e := by simpa using h1
          subst this
          exact fun hh => hk hh.symm
      · intro h f hf
        exact h f (List.mem_append.2 (Or.inl hf))

theorem checkoutNewStep_after_delete (s : GitState) (b : String)
    (hnd : s.branches.Nodup) (hcur : s.currentBranch ≠ b) :
    (checkoutNewStep (branchDeleteStep s b).2 b).1 = true := by
  by_cases hb : b ∈ s.branches
  · have hdel : (branchDeleteStep s b).2
        = { s with branches := s.branches.erase b } := by
      simp [branchDeleteStep, hb, hcur]
    rw [hdel]
    have hmem : b ∉ s.branches.erase b := by
      intro hm
      exact ((List.Nodup.mem_erase_iff hnd).1 hm).1 rfl
    simp [checkoutNewStep, hmem]
  · have hdel : (branchDeleteStep s b).2 = s := by
      simp [branchDeleteStep, hb]
    rw [hdel]
    simp [checkoutNewStep, hb]

theorem checkout_branch_succeeds (s : GitState) (b : String) :
    (checkout_branch s b).1 = true := by
  by_cases hb : b ∈ (branchDeleteStep s b).2.branches
  · simp [checkout_branch, checkoutNewStep, checkoutStep, hb]
  · simp [checkout_branch, checkoutNewStep, checkoutStep, hb]

theorem committedChanges_checkout_branch (s : GitState) (b : String) :
    committedChanges (checkout_branch s b).2.2 = [] := by
  by_cases hb : b ∈ (branchDeleteStep s b).2.branches <;>
    simp [checkout_branch, checkoutNewStep, hb, committedChanges, isChange]

theorem isChange_checkout_branch (s : GitState) (b : String) :
    ∀ a ∈ (checkout_branch s b).2.2, isChange a = false := by
  by_cases hb : b ∈ (branchDeleteStep s b).2.branches <;>
    simp [checkout_branch, checkoutNewStep, hb, isChange]

theorem perform_local_upgrade_of_checkout (s : GitState) (skillName path : String)
    (hco : (checkoutNewStep (branchDeleteStep s ("upgrade/" ++ skillName)).2
        ("upgrade/" ++ skillName)).1 = true) :
    perform_local_upgrade s skillName path =
      if s.diffOut path = "" then
        (Outcome.alreadyUpdated,
          [Effect.reset, Effect.fetch, Effect.resetHard s.originHead,
            Effect.branchDelete ("upgrade/" ++ skillName),
            Effect.checkoutNew ("upgrade/" ++ skillName)])
      else
        (Outcome.ok ("upgrade/" ++ skillName),
          [Effect.reset, Effect.fetch, Effect.resetHard s.originHead,
            Effect.branchDelete ("upgrade/" ++ skillName),
            Effect.checkoutNew ("upgrade/" ++ skillName),
            Effect.add path, Effect.commit ("Upgrade " ++ skillName)]) := by
  by_cases hd : s.diffOut path = "" <;> simp [perform_local_upgrade, hco, hd]

theorem perform_local_upgrade_result (s : GitState) (skillName path : String)
    (hnd : s.branches.Nodup) (hcur : s.currentBranch ≠ "upgrade/" ++ skillName) :
    perform_local_upgrade s skillName path =
      if s.diffOut path = "" then
        (Outcome.alreadyUpdated,
          [Effect.reset, Effect.fetch, Effect.resetHard s.originHead,
            Effect.branchDelete ("upgrade/" ++ skillName),
            Effect.checkoutNew ("upgrade/" ++ skillName)])
      else
        (Outcome.ok ("upgrade/" ++ skillName),
          [Effect.reset, Effect.fetch, Effect.resetHard s.originHead,
            Effect.branchDelete ("upgrade/" ++ skillName),
            Effect.checkoutNew ("upgrade/" ++ skillName),
            Effect.add path, Effect.commit ("Upgrade " ++ skillName)]) :=
  perform_local_upgrade_of_checkout s skillName path
    (checkoutNewStep_after_delete s ("upgrade/" ++ skillName) hnd hcur)

theorem skillData_upgrade_result (s : GitState) (skillName path : String)
    (hfind : find_submodule_path s.registry skillName = some path) :
    skillData_upgrade s skillName =
      if s.diffOut path = "" ∧ s.lsFilesOut path ≠ "" then
        (Outcome.alreadyUpdated,
          [Effect.update, Effect.fetch, Effect.resetHard s.originHead]
            ++ (checkout_branch s ("upgrade/" ++ skillName)).2.2)
      else
        (Outcome.ok ("upgrade/" ++ skillName),
          [Effect.update, Effect.fetch, Effect.resetHard s.originHead]
            ++ (checkout_branch s ("upgrade/" ++ skillName)).2.2
            ++ [Effect.add path, Effect.commit ("Upgrade " ++ skillName)]) := by
  have hcb := checkout_branch_succeeds s ("upgrade/" ++ skillName)
  by_cases hd : s.diffOut path = "" ∧ s.lsFilesOut path ≠ "" <;>
    simp [skillData_upgrade, hfind, hcb, hd]

theorem performRun_result (s : GitState) (skillName path : String)
    (hfind : find_submodule_path s.registry skillName = some path)
    (hnd : s.branches.Nodup) (hcur : s.currentBranch ≠ "upgrade/" ++ skillName) :
    performRun s skillName =
      if s.diffOut path = "" then
        (Outcome.alreadyUpdated,
          [Effect.update, Effect.submoduleInit path,
            Effect.reset, Effect.fetch, Effect.resetHard s.originHead,
            Effect.branchDelete ("upgrade/" ++ skillName),
            Effect.checkoutNew ("upgrade/" ++ skillName)])
      else
        (Outcome.ok ("upgrade/" ++ skillName),
          [Effect.update, Effect.submoduleInit path,
            Effect.reset, Effect.fetch, Effect.resetHard s.originHead,
            Effect.branchDelete ("upgrade/" ++ skillName),
            Effect.checkoutNew ("upgrade/" ++ skillName),
            Effect.add path, Effect.commit ("Upgrade " ++ skillName),
            Effect.setupFork, Effect.push ("upgrade/" ++ skillName),
            Effect.prReconcile]) := by
  have hpl := perform_local_upgrade_result s skillName path hnd hcur
  by_cases hd : s.diffOut path = "" <;>
    simp [performRun, upgradeActionFlow, hfind, hpl, hd]

theorem strContains_prFooter (a version : String) :
    strContains (a ++ prFooter version) marker = true := by
  have hlitdata :
      ("\n\n<sub>Created with [mycroft-skills-kit](https://github.com/mycroftai/mycroft-skills-kit) v").data
        = ("\n\n<sub>Created with [").data ++ marker.data
          ++ ("](https://github.com/mycroftai/mycroft-skills-kit) v").data := by
    decide
  have e2 : (prFooter version).data
      = ("\n\n<sub>Created with [mycroft-skills-kit](https://github.com/mycroftai/mycroft-skills-kit) v").data
        ++ version.data ++ ("</sub>").data := rfl
  rw [strContains, String.data_append, e2, hlitdata]
  simp only [List.append_assoc]
  rw [← List.append_assoc]
  exact hasSub_middle _ _ _

/-- Claim C5: a plugin identifier present as a name in the registry's
tracked list resolves to a path recorded for that name; an absent
identifier makes both implementations fail with `NotUploaded`, and the
resolution step stages and commits nothing. -/
theorem c5_resolution (s : GitState) (skillName : String) :
    (∀ p, find_submodule_path s.registry skillName = some p →
        ∃ e ∈ s.registry, e.name = skillName ∧ e.path = p)
    ∧ ((∃ e ∈ s.registry, e.name = skillName) ↔
        (find_submodule_path s.registry skillName).isSome)
    ∧ (find_submodule_path s.registry skillName = none →
        (upgradeActionFlow s skillName).1 = Outcome.notUploaded
        ∧ committedChanges (upgradeActionFlow s skillName).2 = []
        ∧ (skillData_upgrade s skillName).1 = Outcome.notUploaded
        ∧ (skillData_upgrade s skillName).2 = []) := by
  refine ⟨fun p hp => name_to_path_some _ _ _ hp, ?_, fun hnone => ?_⟩
  · cases hf : find_submodule_path s.registry skillName with
    | none =>
      simp only [hf, Option.isSome_none, Bool.false_eq_true, iff_false, not_exists]
      intro e he
      exact (name_to_path_eq_none _ _).1 hf e he.1 he.2
    | some p =>
      simp only [hf, Option.isSome_some, iff_true]
      obtain ⟨e, he, hn, _⟩ := name_to_path_some _ _ _ hf
      exact ⟨e, he, hn⟩
  · refine ⟨?_, ?_, ?_, ?_⟩ <;>
      simp [upgradeActionFlow, skillData_upgrade, hnone, committedChanges, isChange]

/-- Witness for C5: on an empty registry the upgrade fails with
`NotUploaded`. -/
theorem c5_witness :
    (skillData_upgrade (mkState [] "" "") "skill-ghost").1 = Outcome.notUploaded :=
  ((c5_resolution (mkState [] "" "") "skill-ghost").2.2 (by decide)).2.2.1

/-- Claim C9: with more than one matching pull request,
`create_or_edit_pr` behaves as if only the first were returned, and the
multiple-match case itself raises nothing beyond the ordinary
first-element outcome. -/
theorem c9_first_of_multiple (title body : String) (p q : Pull) (rest : List Pull) :
    create_or_edit_pr title body (p :: q :: rest) = create_or_edit_pr title body [p]
    ∧ (create_or_edit_pr title body (p :: q :: rest)
        = PrResult.edited 0 title body
      ∨ create_or_edit_pr title body (p :: q :: rest) = PrResult.prModified) := by
  by_cases h : strContains p.body marker = true <;> simp [create_or_edit_pr, h]

/-- Claim C10: splitting the empty rev-list output still yields one
element, so the generated body carries exactly one bullet, rendered
from the empty sha. -/
theorem c10_empty_revlist_single_bullet (skillName version : String)
    (subjectOf htmlUrlOf : String → String) :
    (create_pr_message skillName version "" subjectOf htmlUrlOf).2
      = prHeader skillName ++ mkBullet (subjectOf "") (htmlUrlOf "")
        ++ prFooter version
    ∧ (pySplitNl "").length = 1 :=
  ⟨rfl, rfl⟩

/-- Counterexample for C3: when the first matching pull request still
carries the provenance marker, `create_or_edit_pr` edits it and raises
nothing, even though a second matching pull request without the marker
exists. -/
theorem c3_counterexample :
    create_or_edit_pr "Upgrade skill-weather" "new body"
        [Pull.mk "old title"
            "Upgrade\n\n<sub>Created with [mycroft-skills-kit](x) v0.1</sub>",
          Pull.mk "manual title" "A manually written description"]
      = PrResult.edited 0 "Upgrade skill-weather" "new body"
    ∧ strContains "A manually written description" marker = false := by
  decide

/-- Claim C3 (amended): when the FIRST matching pull request's body
does not contain the provenance marker, `create_or_edit_pr` raises
`PRModified` and edits no pull request. -/
theorem c3_first_unmarked_refused (editTitle editBody : String) (p : Pull)
    (rest : List Pull) (h : strContains p.body marker = false) :
    create_or_edit_pr editTitle editBody (p :: rest) = PrResult.prModified
    ∧ applyPr (create_or_edit_pr editTitle editBody (p :: rest)) (p :: rest)
      = p :: rest := by
  simp [create_or_edit_pr, h, applyPr]

/-- Witness for C3. -/
theorem c3_witness :
    create_or_edit_pr "t" "b" [Pull.mk "mt" "hand edited"] = PrResult.prModified :=
  (c3_first_unmarked_refused "t" "b" (Pull.mk "mt" "hand edited") [] (by decide)).1

/-- Counterexample for C4: when the first matching pull request lacks
the marker, `create_or_edit_pr` raises `PRModified` and the second
matching pull request, though its body carries the marker, is not
edited. -/
theorem c4_counterexample :
    create_or_edit_pr "Upgrade skill-weather" "new body"
        [Pull.mk "manual title" "A manually written description",
          Pull.mk "old title"
            "Upgrade\n\n<sub>Created with [mycroft-skills-kit](x) v0.1</sub>"]
      = PrResult.prModified
    ∧ strContains
        "Upgrade\n\n<sub>Created with [mycroft-skills-kit](x) v0.1</sub>" marker
      = true := by
  decide

/-- Claim C4 (amended): when the FIRST matching pull request's body
contains the provenance marker, `create_or_edit_pr` edits that pull
request with the new title and body; `create_pull` runs only when no
matching pull request exists. -/
theorem c4_first_marked_edited (editTitle editBody : String) (p : Pull)
    (rest : List Pull) (h : strContains p.body marker = true) :
    create_or_edit_pr editTitle editBody (p :: rest)
      = PrResult.edited 0 editTitle editBody
    ∧ ∀ (t b ct cb : String) (pulls : List Pull),
        create_or_edit_pr t b pulls = PrResult.created ct cb → pulls = [] := by
  constructor
  · simp [create_or_edit_pr, h]
  · intro t b ct cb pulls hc
    cases pulls with
    | nil => rfl
    | cons q qs =>
      by_cases hq : strContains q.body marker = true <;>
        simp [create_or_edit_pr, hq] at hc

/-- Witness for C4. -/
theorem c4_witness :
    create_or_edit_pr "t" "b"
        [Pull.mk "mt" "Done with [mycroft-skills-kit](u) v1"]
      = PrResult.edited 0 "t" "b" :=
  (c4_first_marked_edited "t" "b"
    (Pull.mk "mt" "Done with [mycroft-skills-kit](u) v1") [] (by decide)).1

/-- Claim C8: every body produced by `create_pr_message` contains the
provenance marker, so a later `create_or_edit_pr` that finds a pull
request with such a body takes the edit path and never raises
`PRModified`. -/
theorem c8_marker_roundtrip (skillName version revListOut : String)
    (subjectOf htmlUrlOf : String → String)
    (pullTitle editTitle editBody : String) (rest : List Pull) :
    strContains (create_pr_message skillName version revListOut subjectOf htmlUrlOf).2
      marker = true
    ∧ create_or_edit_pr editTitle editBody
        (Pull.mk pullTitle
            (create_pr_message skillName version revListOut subjectOf htmlUrlOf).2
          :: rest)
      = PrResult.edited 0 editTitle editBody := by
  have hbody :
      (create_pr_message skillName version revListOut subjectOf htmlUrlOf).2
        = (prHeader skillName
            ++ joinNl ((pySplitNl revListOut).map
                (fun sha => mkBullet (subjectOf sha) (htmlUrlOf sha))))
          ++ prFooter version := rfl
  have hc : strContains
      (create_pr_message skillName version revListOut subjectOf htmlUrlOf).2
      marker = true := by
    rw [hbody]
    exact strContains_prFooter _ version
  exact ⟨hc, by simp [create_or_edit_pr, hc]⟩

/-- Counterexample for C1: with an empty diff at an untracked submodule
path, the `UpgradeAction` run still fails with `AlreadyUpdated`, so the
run does not require the path to be tracked. -/
theorem c1_counterexample :
    (performRun (mkState sampleRegistry "" "") "skill-a").1 = Outcome.alreadyUpdated
    ∧ (mkState sampleRegistry "" "").lsFilesOut "skills/skill-a" = "" := by
  decide

/-- Claim C1 (amended): `SkillData.upgrade` fails with `AlreadyUpdated`
exactly when the registry diff at the submodule path is empty and the
path is already tracked, while the `UpgradeAction` run fails with
`AlreadyUpdated` exactly when the diff is empty regardless of tracking;
whenever `AlreadyUpdated` is raised, no add, commit, push, or
pull-request operation is performed in that run. -/
theorem c1_alreadyUpdated_conditions (s : GitState) (skillName path : String)
    (hfind : find_submodule_path s.registry skillName = some path)
    (hnd : s.branches.Nodup)
    (hcur : s.currentBranch ≠ "upgrade/" ++ skillName) :
    ((skillData_upgrade s skillName).1 = Outcome.alreadyUpdated ↔
      (s.diffOut path = "" ∧ s.lsFilesOut path ≠ ""))
    ∧ ((performRun s skillName).1 = Outcome.alreadyUpdated ↔ s.diffOut path = "")
    ∧ ((performRun s skillName).1 = Outcome.alreadyUpdated →
        committedChanges (performRun s skillName).2 = []
        ∧ (performRun s skillName).2.filter isPushOrPr = [])
    ∧ ((skillData_upgrade s skillName).1 = Outcome.alreadyUpdated →
        committedChanges (skillData_upgrade s skillName).2 = []) := by
  have hsd := skillData_upgrade_result s skillName path hfind
  have hpr := performRun_result s skillName path hfind hnd hcur
  have hic := isChange_checkout_branch s ("upgrade/" ++ skillName)
  by_cases hd : s.diffOut path = "" <;>
    by_cases hls : s.lsFilesOut path = "" <;>
      (simp [hsd, hpr, hd, hls, committedChanges, List.filter_append, isChange,
          isPushOrPr] <;>
        exact hic)

/-- Witness for C1: empty diff at a tracked path makes
`SkillData.upgrade` fail with `AlreadyUpdated`. -/
theorem c1_witness :
    (skillData_upgrade (mkState sampleRegistry "" "160000 sha 0 skills/skill-a")
        "skill-a").1 = Outcome.alreadyUpdated :=
  ((c1_alreadyUpdated_conditions
      (mkState sampleRegistry "" "160000 sha 0 skills/skill-a") "skill-a"
      "skills/skill-a" (by decide) (by decide) (by decide)).1).mpr
    ⟨rfl, by decide⟩

/-- Counterexample for C2: with an empty diff at an untracked path the
two implementations disagree, `perform_local_upgrade` raising
`AlreadyUpdated` while `SkillData.upgrade` commits and returns the
branch. -/
theorem c2_counterexample :
    (upgradeActionFlow (mkState weatherRegistry "" "") "skill-weather").1
      = Outcome.alreadyUpdated
    ∧ (skillData_upgrade (mkState weatherRegistry "" "") "skill-weather").1
      = Outcome.ok "upgrade/skill-weather" := by
  decide

/-- Claim C2 (amended): the two implementations produce the same
outcome (branch name, `AlreadyUpdated`, `NotUploaded`) and the same
staged-and-committed changes on every state where the resolved
submodule path is tracked (non-empty ls-files) and the upgrade branch
is not the currently checked-out branch. -/
theorem c2_equivalence_when_tracked (s : GitState) (skillName : String)
    (hnd : s.branches.Nodup)
    (hcur : s.currentBranch ≠ "upgrade/" ++ skillName)
    (htracked : ∀ path, find_submodule_path s.registry skillName = some path →
      s.lsFilesOut path ≠ "") :
    (upgradeActionFlow s skillName).1 = (skillData_upgrade s skillName).1
    ∧ committedChanges (upgradeActionFlow s skillName).2
      = committedChanges (skillData_upgrade s skillName).2 := by
  cases hfind : find_submodule_path s.registry skillName with
  | none =>
    simp [upgradeActionFlow, skillData_upgrade, hfind, committedChanges, isChange]
  | some path =>
    have hls := htracked path hfind
    have hsd := skillData_upgrade_result s skillName path hfind
    have hpl := perform_local_upgrade_result s skillName path hnd hcur
    have hic := isChange_checkout_branch s ("upgrade/" ++ skillName)
    by_cases hd : s.diffOut path = "" <;>
      (simp [upgradeActionFlow, hfind, hsd, hpl, hd, hls, committedChanges,
          List.filter_append, isChange];
        exact hic)

/-- Witness for C2: a tracked path with a non-empty diff gives the same
outcome in both implementations. -/
theorem c2_witness :
    (upgradeActionFlow (mkState sampleRegistry "diff text" "tracked") "skill-a").1
      = (skillData_upgrade (mkState sampleRegistry "diff text" "tracked")
          "skill-a").1 :=
  (c2_equivalence_when_tracked (mkState sampleRegistry "diff text" "tracked")
    "skill-a" (by decide) (by decide)
    (fun path _ => by show ("tracked" : String) ≠ ""; decide)).1

/-- Claim C6: when the local branch upgrade/<pluginId> does not exist,
both implementations record the suppressed delete followed by the fresh
branch creation and never abort the run with a git error. -/
theorem c6_branch_absent_no_abort (s : GitState) (skillName path : String)
    (hfind : find_submodule_path s.registry skillName = some path)
    (habsent : ("upgrade/" ++ skillName) ∉ s.branches) :
    (upgradeActionFlow s skillName).1 ≠ Outcome.gitError
    ∧ (skillData_upgrade s skillName).1 ≠ Outcome.gitError
    ∧ hasSub [Effect.branchDelete ("upgrade/" ++ skillName),
          Effect.checkoutNew ("upgrade/" ++ skillName)]
        (upgradeActionFlow s skillName).2 = true
    ∧ hasSub [Effect.branchDelete ("upgrade/" ++ skillName),
          Effect.checkoutNew ("upgrade/" ++ skillName)]
        (skillData_upgrade s skillName).2 = true := by
  have hdel : (branchDeleteStep s ("upgrade/" ++ skillName)).2 = s := by
    simp [branchDeleteStep, habsent]
  have hco : (checkoutNewStep (branchDeleteStep s ("upgrade/" ++ skillName)).2
      ("upgrade/" ++ skillName)).1 = true := by
    rw [hdel]
    simp [checkoutNewStep, habsent]
  have hpl := perform_local_upgrade_of_checkout s skillName path hco
  have hcb : (checkout_branch s ("upgrade/" ++ skillName)).2.2
      = [Effect.branchDelete ("upgrade/" ++ skillName),
          Effect.checkoutNew ("upgrade/" ++ skillName)] := by
    simp [checkout_branch, hco]
  have hsd := skillData_upgrade_result s skillName path hfind
  refine ⟨?_, ?_, ?_, ?_⟩
  · by_cases hd : s.diffOut path = "" <;>
      simp [upgradeActionFlow, hfind, hpl, hd]
  · by_cases hc : s.diffOut path = "" ∧ s.lsFilesOut path ≠ "" <;>
      simp [hsd, hc]
  · by_cases hd : s.diffOut path = ""
    · have h2 : (upgradeActionFlow s skillName).2
          = [Effect.update, Effect.submoduleInit path, Effect.reset, Effect.fetch,
              Effect.resetHard s.originHead]
            ++ ([Effect.branchDelete ("upgrade/" ++ skillName),
                  Effect.checkoutNew ("upgrade/" ++ skillName)] ++ []) := by
        simp [upgradeActionFlow, hfind, hpl, hd]
      rw [h2]
      exact hasSub_append_left _ _ _ (hasSub_self_append _ _)
    · have h2 : (upgradeActionFlow s skillName).2
          = [Effect.update, Effect.submoduleInit path, Effect.reset, Effect.fetch,
              Effect.resetHard s.originHead]
            ++ ([Effect.branchDelete ("upgrade/" ++ skillName),
                  Effect.checkoutNew ("upgrade/" ++ skillName)]
              ++ [Effect.add path, Effect.commit ("Upgrade " ++ skillName)]) := by
        simp [upgradeActionFlow, hfind, hpl, hd]
      rw [h2]
      exact hasSub_append_left _ _ _ (hasSub_self_append _ _)
  · by_cases hc : s.diffOut path = "" ∧ s.lsFilesOut path ≠ ""
    · have h2 : (skillData_upgrade s skillName).2
          = [Effect.update, Effect.fetch, Effect.resetHard s.originHead]
            ++ ([Effect.branchDelete ("upgrade/" ++ skillName),
                  Effect.checkoutNew ("upgrade/" ++ skillName)] ++ []) := by
        simp [hsd, hc, hcb]
      rw [h2]
      exact hasSub_append_left _ _ _ (hasSub_self_append _ _)
    · have h2 : (skillData_upgrade s skillName).2
          = [Effect.update, Effect.fetch, Effect.resetHard s.originHead]
            ++ ([Effect.branchDelete ("upgrade/" ++ skillName),
                  Effect.checkoutNew ("upgrade/" ++ skillName)]
              ++ [Effect.add path, Effect.commit ("Upgrade " ++ skillName)]) := by
        simp [hsd, hc, hcb]
      rw [h2]
      exact hasSub_append_left _ _ _ (hasSub_self_append _ _)

/-- Witness for C6: the upgrade branch is absent and the run does not
abort. -/
theorem c6_witness :
    (upgradeActionFlow (mkState sampleRegistry "diff text" "tracked") "skill-a").1
      ≠ Outcome.gitError :=
  (c6_branch_absent_no_abort (mkState sampleRegistry "diff text" "tracked")
    "skill-a" "skills/skill-a" (by decide) (by decide)).1

/-- Counterexample for C7: with an empty rev-list output (zero new
commits) the body still carries one bullet, rendered from the empty
sha, instead of the empty bullet list the claim demands. -/
theorem c7_counterexample :
    (create_pr_message "skill-weather" "0.3.16" "" (fun _ => "Add retry")
        (fun _ => "https://example.com/c")).2
      = prHeader "skill-weather"
        ++ mkBullet "Add retry" "https://example.com/c" ++ prFooter "0.3.16"
    ∧ (create_pr_message "skill-weather" "0.3.16" "" (fun _ => "Add retry")
        (fun _ => "https://example.com/c")).2
      ≠ prHeader "skill-weather" ++ prFooter "0.3.16" := by
  exact ⟨rfl, by decide⟩

/-- Claim C7 (amended): for a rev-list holding at least one commit,
`create_pr_message` returns the title Upgrade <pluginId> and a body
carrying exactly one bullet per commit, each rendered from that
commit's subject line and hosted view, followed by the fixed footer
naming the tool and its version. -/
theorem c7_one_bullet_per_commit (skillName version : String) (shas : List String)
    (subjectOf htmlUrlOf : String → String) (hne : shas ≠ [])
    (hnl : ∀ x ∈ shas, ('\n') ∉ x.data) :
    create_pr_message skillName version (joinNl shas) subjectOf htmlUrlOf
      = ("Upgrade " ++ skillName,
          prHeader skillName
            ++ joinNl (shas.map
                (fun sha => mkBullet (subjectOf sha) (htmlUrlOf sha)))
            ++ prFooter version) := by
  rw [create_pr_message, pySplitNl_joinNl shas hne hnl]

/-- Witness for C7, on the two-commit scenario of the specification. -/
theorem c7_witness :
    create_pr_message "skill-weather" "0.3.16" (joinNl ["def456", "987fff"])
        (fun s => s) (fun s => s)
      = ("Upgrade " ++ "skill-weather",
          prHeader "skill-weather"
            ++ joinNl [mkBullet "def456" "def456", mkBullet "987fff" "987fff"]
            ++ prFooter "0.3.16") :=
  c7_one_bullet_per_commit "skill-weather" "0.3.16" ["def456", "987fff"]
    (fun s => s) (fun s => s) (by decide) (by decide)

end Msk
